import Mathlib

/-!
Verification of the embassy-agb GBA time driver and executor
(src/embassy-agb/src/time_driver.rs, src/embassy-agb/src/executor.rs).

Machine integers are modelled as `Nat` with the Rust casts made explicit
(`as u16` is `% 65536`); every Rust subtraction that can underflow is
modelled with checked subtraction returning `Option` (Rust integer
underflow is a failure path, panicking under debug assertions), so the
primary embedding of `calc_now` is `Option`-valued.  A total `Nat`
version `calcNowTotal` is also defined and proved to agree with the
checked version on the value ranges the driver can actually store
(`initial_timer_value` and `timer_overflow_amount` both originate from
`u16` reads, the counter is a `u16`).

The deadline queue (`embassy_time_queue_utils::Queue`) is an external
collaborator crate, not part of this repository; it is modelled from its
contract as stated in the spec (wake and drop every entry whose deadline
is at most `now`, report the earliest remaining deadline, `u64::MAX`
when empty).
-/

/-- The value `u64::MAX`, the sentinel the driver stores for "no alarm
pending" (`AlarmState::new` and the `none` branch of `set_alarm`). -/
def UMAX : ℕ := 2 ^ 64 - 1

/-- Checked subtraction: `a - b` on an unsigned machine integer, `none` on
underflow (the Rust failure path). -/
def sub? (a b : ℕ) : Option ℕ :=
  if b ≤ a then some (a - b) else none

/-- Embedding of the body of `time_driver.rs::calc_now` up to (but not
including) the final `>> 1` conversion: the `hardware_ticks_elapsed`
value.  `period`, `initial_timer_value` and `timer_overflow_amount` are
`u32` values, `counter` is a `u16` value; the Rust casts `as u16` appear
as `% 65536` and each Rust `-` is checked. -/
def hardware_ticks_elapsed (period counter initial_timer_value timer_overflow_amount : ℕ) :
    Option ℕ := do
  -- let overflow_start = 65536 - timer_overflow_amount;  (u32 subtraction)
  let overflow_start ← sub? 65536 timer_overflow_amount
  if period = 0 then
    -- counter >= initial_timer_value as u16
    if initial_timer_value % 65536 ≤ counter then
      pure (counter - initial_timer_value % 65536)
    else do
      -- ((65536 - initial_timer_value) + counter as u32) as u64
      let d ← sub? 65536 initial_timer_value
      pure (d + counter)
  else
    -- period as u64 * timer_overflow_amount as u64
    let ticks_from_completed_periods := period * timer_overflow_amount
    -- counter >= overflow_start as u16
    let ticks_in_current_period ←
      if overflow_start % 65536 ≤ counter then
        pure (counter - overflow_start % 65536)
      else do
        let d ← sub? 65536 overflow_start
        pure (d + counter)
    pure (ticks_from_completed_periods + ticks_in_current_period)

/-- Embedding of `time_driver.rs::calc_now`: the elapsed hardware ticks
followed by `>> 1` (division by two), converting 65.536kHz hardware ticks
to 32.768kHz embassy ticks. -/
def calc_now (period counter initial_timer_value timer_overflow_amount : ℕ) : Option ℕ :=
  (hardware_ticks_elapsed period counter initial_timer_value timer_overflow_amount).map
    (fun t => t / 2)

/-- The specification's reference algorithm `compute_now` (spec §4.1),
written from the spec's words for comparison with `calc_now`: the
wraparound-safe subtraction "x − y mod 65536" is integer subtraction
followed by the (nonnegative) remainder modulo 65536, and the final
hardware-to-logical conversion is division by the fixed ratio 2. -/
def compute_now_spec (period counter initial_counter overflow_period_length : ℕ) : ℕ :=
  let hw : ℤ :=
    if period = 0 then
      ((counter : ℤ) - (initial_counter : ℤ)) % 65536
    else
      (period : ℤ) * (overflow_period_length : ℤ) +
        ((counter : ℤ) - ((65536 : ℤ) - (overflow_period_length : ℤ))) % 65536
  (hw / 2).toNat

/-- Total rendering of the `hardware_ticks_elapsed` computation of
`calc_now`, identical to `hardware_ticks_elapsed` wherever the latter is
defined (no underflow); used to run the driver state model. -/
def hwTicksTotal (period counter initial_timer_value timer_overflow_amount : ℕ) : ℕ :=
  if period = 0 then
    if initial_timer_value % 65536 ≤ counter then counter - initial_timer_value % 65536
    else (65536 - initial_timer_value) + counter
  else
    period * timer_overflow_amount +
      (if (65536 - timer_overflow_amount) % 65536 ≤ counter then
        counter - (65536 - timer_overflow_amount) % 65536
      else (65536 - (65536 - timer_overflow_amount)) + counter)

/-- Total rendering of `calc_now` (see `hwTicksTotal`). -/
def calcNowTotal (period counter initial_timer_value timer_overflow_amount : ℕ) : ℕ :=
  hwTicksTotal period counter initial_timer_value timer_overflow_amount / 2

/-- One hardware tick of the GBA timer in reload mode: the counter state is
a pair `(period, counter)`; the counter counts up and, on overflowing past
65535, reloads to `65536 - toa` (the configured reload value) while the
overflow interrupt advances `period` by exactly one — the hardware model
the spec's monotonicity property quantifies over. -/
def tick (toa : ℕ) (s : ℕ × ℕ) : ℕ × ℕ :=
  if s.2 + 1 < 65536 then (s.1, s.2 + 1) else (s.1 + 1, 65536 - toa)

/-- The hardware evolution from initialization: at time 0 no overflow has
occurred (`period = 0`) and the counter holds the captured initial value. -/
def hwTrace (toa itv n : ℕ) : ℕ × ℕ := (tick toa)^[n] (0, itv)

/-- Invariant of `hwTrace`: the counter stays in the reload window and,
before the first overflow, at or above the captured initial value. -/
def HwInv (toa itv : ℕ) (s : ℕ × ℕ) : Prop :=
  65536 - toa ≤ s.2 ∧ s.2 < 65536 ∧ (s.1 = 0 → itv ≤ s.2)

/-- Minimum of a list of deadlines, `u64::MAX` when empty — the value
`Queue::next_expiration` reports. -/
def listMin (q : List ℕ) : ℕ := q.foldr min UMAX

/-- Modelled from the spec: the external deadline-queue collaborator's
`next_expiration(now)` (embassy_time_queue_utils::Queue, outside this
repository) — it wakes and removes every entry with deadline ≤ `now` and
returns the earliest remaining deadline (`u64::MAX` if none), per spec
§4.2.  The queue is modelled as the list of pending deadlines. -/
def next_expiration (q : List ℕ) (now : ℕ) : List ℕ × ℕ :=
  ((q.filter fun d => decide (now < d)), listMin (q.filter fun d => decide (now < d)))

/-- Embedding of `GbaTimeDriver::set_alarm`: record `timestamp`; if it is
already at or before `now`, reset the stored timestamp to `u64::MAX` and
report failure, otherwise keep it and report success.  Returns
`(result, stored timestamp)`. -/
def set_alarm (timestamp now : ℕ) : Bool × ℕ :=
  if timestamp ≤ now then (false, UMAX) else (true, timestamp)

/-- The retry loop shared by `GbaTimeDriver::trigger_alarm` and
`GbaTimeDriver::schedule_wake`: repeatedly ask the queue for the next
expiration at the current `now` reading and try to record it with
`set_alarm`, until `set_alarm` succeeds.  `nows` is the sequence of
successive `self.now()` readings (index `i` for the reading passed to
`next_expiration`, `i + 1` for the one `set_alarm` compares against; the
hardware counter keeps running inside the critical section, so the
readings may advance).  `fuel` bounds the number of iterations; `none`
means the fuel ran out, so termination is the statement that enough fuel
makes the result `some`. -/
def alarmLoop (nows : ℕ → ℕ) (i fuel : ℕ) (q : List ℕ) : Option (List ℕ × ℕ) :=
  match fuel with
  | 0 => none
  | fuel2 + 1 =>
    if (set_alarm (next_expiration q (nows i)).2 (nows (i + 1))).1 = true then
      some (next_expiration q (nows i))
    else alarmLoop nows (i + 2) fuel2 (next_expiration q (nows i)).1

/-- The `GbaTimeDriver` state: the three `AtomicU32` fields, the alarm
timestamp, the pending-deadline queue (deadlines only; wake handles are
opaque) and the timer cell (`None` before `init_timer` runs, otherwise
the current hardware counter value). -/
structure DriverState where
  period : ℕ
  initial_timer_value : ℕ
  timer_overflow_amount : ℕ
  alarm_timestamp : ℕ
  queue : List ℕ
  timer : Option ℕ

/-- The static `DRIVER` initializer: `period = 0`, `initial_timer_value
= 0`, `timer_overflow_amount = DEFAULT_TIMER_OVERFLOW_AMOUNT = 64`,
alarm timestamp `u64::MAX`, empty queue, no timer installed. -/
def initialDriverState : DriverState :=
  ⟨0, 0, 64, UMAX, [], none⟩

/-- Embedding of `GbaTimeDriver::read_timer_value`: the current counter if
the timer cell is initialized, 0 otherwise. -/
def read_timer_value (s : DriverState) : ℕ :=
  match s.timer with
  | some t => t
  | none => 0

/-- Embedding of `Driver::now` for `GbaTimeDriver`: load the three atomics,
read the counter, and convert with `calc_now` (total rendering). -/
def now (s : DriverState) : ℕ :=
  calcNowTotal s.period (read_timer_value s) s.initial_timer_value s.timer_overflow_amount

/-- Embedding of `GbaTimeDriver::set_timer_frequency`: store the `u16`
overflow amount into the `timer_overflow_amount` atomic. -/
def set_timer_frequency (s : DriverState) (overflow_amount : ℕ) : DriverState :=
  { s with timer_overflow_amount := overflow_amount }

/-- `GbaTimeDriver::set_alarm` as a state transformer: only the stored
alarm timestamp changes (see `set_alarm` for the value). -/
def set_alarm_apply (s : DriverState) (timestamp now2 : ℕ) : DriverState :=
  { s with alarm_timestamp := (set_alarm timestamp now2).2 }

/-- Embedding of `GbaTimeDriver::trigger_alarm`: run the retry loop over
the queue (with fuel `queue.length + 1`, which the termination theorem
shows suffices) and store the resulting queue and recorded deadline. -/
def trigger_alarm (nows : ℕ → ℕ) (i : ℕ) (s : DriverState) : Option DriverState :=
  (alarmLoop nows i (s.queue.length + 1) s.queue).map
    (fun r => { s with queue := r.1, alarm_timestamp := r.2 })

/-- Embedding of `GbaTimeDriver::on_interrupt`: `period.fetch_add(1)`
(wrapping at the `u32` width) followed by `trigger_alarm` inside the
critical section. -/
def on_interrupt (nows : ℕ → ℕ) (i : ℕ) (s : DriverState) : Option DriverState :=
  trigger_alarm nows i { s with period := (s.period + 1) % 2 ^ 32 }

/-- Embedding of `Driver::schedule_wake`: enqueue the deadline; if the
queue reports that the earliest deadline changed (modelled from the spec
contract: the new deadline undercuts the currently tracked one), rerun
the retry loop. -/
def schedule_wake (deadline : ℕ) (nows : ℕ → ℕ) (i : ℕ) (s : DriverState) :
    Option DriverState :=
  if deadline < s.alarm_timestamp then
    (alarmLoop nows i ((deadline :: s.queue).length + 1) (deadline :: s.queue)).map
      (fun r => { s with queue := r.1, alarm_timestamp := r.2 })
  else some { s with queue := deadline :: s.queue }

/-- The two phases of `Executor::run`'s endless loop (executor.rs): a poll
pass over the cooperative scheduler, then a halt request. -/
inductive ExecPhase
  | run
  | halt

/-- One step of `Executor::run`'s loop body.  `workRemains` is whether the
poll pass left runnable work — the source ignores it: `agb::halt()` is
called unconditionally after `inner.poll()`.  `none` would mean the
function returned; the loop has no exit, so every step is `some`. -/
def execStep (workRemains : Bool) : ExecPhase → Option ExecPhase
  | ExecPhase.run => some ExecPhase.halt
  | ExecPhase.halt => some ExecPhase.run

/-- The number of enabled time-driver timer feature flags, as summed by
the compile-time check in time_driver.rs (the `const _` block). -/
def timer_count (f0 f1 f2 f3 : Bool) : ℕ :=
  0 + (if f0 then 1 else 0) + (if f1 then 1 else 0) + (if f2 then 1 else 0) +
    (if f3 then 1 else 0)

/-- Embedding of the compile-time exactly-one-timer check: `none` models
the `panic!` (build failure) when no timer or more than one timer is
selected; `some ()` models a successful build. -/
def timer_config_check (f0 f1 f2 f3 : Bool) : Option Unit :=
  if timer_count f0 f1 f2 f3 = 0 then none
  else if timer_count f0 f1 f2 f3 > 1 then none
  else some ()

theorem hardware_ticks_elapsed_eq_total (p c i t : ℕ) (hi : i ≤ 65536) (ht : t ≤ 65536) :
    hardware_ticks_elapsed p c i t = some (hwTicksTotal p c i t) := by
  unfold hardware_ticks_elapsed hwTicksTotal sub?
  have h1 : 65536 - t ≤ 65536 := by omega
  rw [if_pos ht]
  by_cases hp : p = 0
  · subst hp
    by_cases hb : i % 65536 ≤ c
    · simp [hb]
    · simp [hb, hi]
  · by_cases hb : (65536 - t) % 65536 ≤ c
    · simp [hp, hb]
    · simp [hp, hb, h1]

theorem calc_now_eq_total (p c i t : ℕ) (hi : i ≤ 65536) (ht : t ≤ 65536) :
    calc_now p c i t = some (calcNowTotal p c i t) := by
  unfold calc_now calcNowTotal
  rw [hardware_ticks_elapsed_eq_total p c i t hi ht]
  rfl

theorem calcNowTotal_eq_spec (p c i t : ℕ) (hc : c < 65536) (hi : i ≤ 65536)
    (ht : t ≤ 65536) :
    calcNowTotal p c i t = compute_now_spec p c i t := by
  unfold calcNowTotal hwTicksTotal compute_now_spec
  have hprod : ((p : ℤ)) * ((t : ℤ)) = ((p * t : ℕ) : ℤ) := (Nat.cast_mul p t).symm
  simp only []
  split_ifs with hp hb hb
  · omega
  · omega
  · rw [hprod]
    generalize p * t = P
    omega
  · rw [hprod]
    generalize p * t = P
    omega

theorem HwInv_init (toa itv : ℕ) (hitv2 : itv < 65536) (hitv1 : 65536 - toa ≤ itv) :
    HwInv toa itv (0, itv) :=
  ⟨hitv1, hitv2, fun _ => le_refl _⟩

theorem HwInv_tick (toa itv : ℕ) (h0 : 0 < toa) (s : ℕ × ℕ) (hs : HwInv toa itv s) :
    HwInv toa itv (tick toa s) := by
  obtain ⟨p, c⟩ := s
  obtain ⟨h1, h2, h3⟩ := hs
  unfold tick HwInv
  by_cases hw : c + 1 < 65536
  · rw [if_pos hw]
    exact ⟨by simp at h1 ⊢; omega, by simpa using hw, fun hp => by simp at h3 ⊢; omega⟩
  · rw [if_neg hw]
    refine ⟨le_refl _, by simp; omega, fun hp => by simp at hp⟩

theorem hwTicks_mono_tick (toa itv : ℕ) (h0 : 0 < toa) (ht : toa ≤ 65536)
    (hitv1 : 65536 - toa ≤ itv) (hitv2 : itv < 65536) (s : ℕ × ℕ) (hs : HwInv toa itv s) :
    hwTicksTotal s.1 s.2 itv toa ≤ hwTicksTotal (tick toa s).1 (tick toa s).2 itv toa := by
  obtain ⟨p, c⟩ := s
  obtain ⟨h1, h2, h3⟩ := hs
  simp only at h1 h2 h3
  dsimp only [tick]
  have hmul : (p + 1) * toa = p * toa + toa := by ring
  by_cases hp : p = 0
  · subst hp
    have h4 := h3 rfl
    by_cases hw : c + 1 < 65536
    · rw [if_pos hw]
      dsimp only
      unfold hwTicksTotal
      split_ifs <;> first | omega | (exfalso ; assumption)
    · rw [if_neg hw]
      dsimp only
      unfold hwTicksTotal
      split_ifs <;> first | omega | (exfalso ; assumption)
  · by_cases hw : c + 1 < 65536
    · rw [if_pos hw]
      dsimp only
      unfold hwTicksTotal
      split_ifs <;> first | omega | (exfalso ; assumption)
    · rw [if_neg hw]
      dsimp only
      unfold hwTicksTotal
      split_ifs <;> first | omega | (exfalso ; assumption)

theorem HwInv_trace (toa itv : ℕ) (h0 : 0 < toa) (hitv1 : 65536 - toa ≤ itv)
    (hitv2 : itv < 65536) (n : ℕ) : HwInv toa itv (hwTrace toa itv n) := by
  induction n with
  | zero => exact HwInv_init toa itv hitv2 hitv1
  | succ n ih =>
      have hstep : hwTrace toa itv (n + 1) = tick toa (hwTrace toa itv n) :=
        Function.iterate_succ_apply' _ _ _
      rw [hstep]
      exact HwInv_tick toa itv h0 _ ih

theorem calcNow_mono_trace (toa itv : ℕ) (h0 : 0 < toa) (ht : toa ≤ 65536)
    (hitv1 : 65536 - toa ≤ itv) (hitv2 : itv < 65536) (m n : ℕ) (hmn : m ≤ n) :
    calcNowTotal (hwTrace toa itv m).1 (hwTrace toa itv m).2 itv toa ≤
      calcNowTotal (hwTrace toa itv n).1 (hwTrace toa itv n).2 itv toa := by
  induction n, hmn using Nat.le_induction with
  | base => exact le_refl _
  | succ n hmn ih =>
      refine le_trans ih ?_
      have hstep : hwTrace toa itv (n + 1) = tick toa (hwTrace toa itv n) :=
        Function.iterate_succ_apply' _ _ _
      rw [hstep]
      unfold calcNowTotal
      exact Nat.div_le_div_right
        (hwTicks_mono_tick toa itv h0 ht hitv1 hitv2 _
          (HwInv_trace toa itv h0 hitv1 hitv2 n))

theorem listMin_mem_or_umax (q : List ℕ) : listMin q ∈ q ∨ listMin q = UMAX := by
  induction q with
  | nil => exact Or.inr rfl
  | cons a t ih =>
      unfold listMin
      simp only [List.foldr_cons]
      rcases le_total a (t.foldr min UMAX) with h | h
      · rw [min_eq_left h]
        exact Or.inl (List.mem_cons_self a t)
      · rw [min_eq_right h]
        rcases ih with hm | hu
        · exact Or.inl (List.mem_cons_of_mem a hm)
        · exact Or.inr hu

theorem filter_length_lt {p : ℕ → Bool} {l : List ℕ} {a : ℕ} (ha : a ∈ l)
    (hpa : p a = false) : (l.filter p).length < l.length := by
  induction l with
  | nil => cases ha
  | cons b t ih =>
      rcases List.mem_cons.mp ha with rfl | hat
      · rw [List.filter_cons, hpa]
        simp only [Bool.false_eq_true, if_false, List.length_cons]
        exact Nat.lt_succ_of_le (List.length_filter_le p t)
      · rw [List.filter_cons]
        by_cases hb : p b = true
        · rw [if_pos hb]
          simpa using Nat.succ_lt_succ (ih hat)
        · simp only [hb, if_false, List.length_cons]
          exact Nat.lt_succ_of_lt (ih hat)

theorem set_alarm_true_iff (ts n : ℕ) : (set_alarm ts n).1 = true ↔ n < ts := by
  unfold set_alarm
  split_ifs with h <;> simp <;> omega

theorem set_alarm_false_stores_umax (ts n : ℕ) (h : (set_alarm ts n).1 = false) :
    (set_alarm ts n).2 = UMAX := by
  unfold set_alarm at h ⊢
  split_ifs with h2
  · rfl
  · rw [if_neg h2] at h
    exact absurd h (by simp)

theorem alarmLoop_terminates (nows : ℕ → ℕ) (hmono : Monotone nows)
    (hlt : ∀ j, nows j < UMAX) :
    ∀ fuel i q, ((q.filter fun d => decide (nows i < d)).length < fuel) →
      ∃ r next, alarmLoop nows i fuel q = some (r, next) ∧ ∃ j, nows j < next := by
  intro fuel
  induction fuel with
  | zero => intro i q h; omega
  | succ fuel2 ih =>
      intro i q h
      unfold alarmLoop
      by_cases hok :
          (set_alarm (next_expiration q (nows i)).2 (nows (i + 1))).1 = true
      · rw [if_pos hok]
        exact ⟨_, _, rfl, i + 1, (set_alarm_true_iff _ _).mp hok⟩
      · rw [if_neg hok]
        have hle : (next_expiration q (nows i)).2 ≤ nows (i + 1) := by
          by_contra hc
          exact hok ((set_alarm_true_iff _ _).mpr (not_le.mp hc))
        have hmem : (next_expiration q (nows i)).2 ∈ (next_expiration q (nows i)).1 := by
          rcases listMin_mem_or_umax (q.filter fun d => decide (nows i < d)) with hm | hu
          · exact hm
          · exfalso
            have hum : (next_expiration q (nows i)).2 = UMAX := hu
            rw [hum] at hle
            exact absurd hle (not_le.mpr (hlt (i + 1)))
        refine ih (i + 2) (next_expiration q (nows i)).1 ?_
        have hfalse : (fun d => decide (nows (i + 2) < d)) (next_expiration q (nows i)).2
            = false := by
          simp only [decide_eq_false_iff_not, not_lt]
          exact le_trans hle (hmono (by omega : i + 1 ≤ i + 2))
        have hlt2 :=
          filter_length_lt (p := fun d => decide (nows (i + 2) < d)) hmem hfalse
        have hlen : ((next_expiration q (nows i)).1).length < fuel2 + 1 := h
        omega

theorem trigger_alarm_period (nows : ℕ → ℕ) (i : ℕ) (s s2 : DriverState)
    (h : trigger_alarm nows i s = some s2) : s2.period = s.period := by
  unfold trigger_alarm at h
  cases halarm : alarmLoop nows i (s.queue.length + 1) s.queue with
  | none => rw [halarm] at h; cases h
  | some r =>
      rw [halarm] at h
      simp only [Option.map_some', Option.some.injEq] at h
      rw [← h]

theorem on_interrupt_period (nows : ℕ → ℕ) (i : ℕ) (s s2 : DriverState)
    (h : on_interrupt nows i s = some s2) : s2.period = (s.period + 1) % 2 ^ 32 := by
  unfold on_interrupt at h
  exact trigger_alarm_period nows i _ s2 h

theorem schedule_wake_period (deadline : ℕ) (nows : ℕ → ℕ) (i : ℕ) (s s2 : DriverState)
    (h : schedule_wake deadline nows i s = some s2) : s2.period = s.period := by
  unfold schedule_wake at h
  split_ifs at h
  · cases halarm : alarmLoop nows i ((deadline :: s.queue).length + 1) (deadline :: s.queue) with
    | none => rw [halarm] at h; cases h
    | some r =>
        rw [halarm] at h
        simp only [Option.map_some', Option.some.injEq] at h
        rw [← h]
  · simp only [Option.some.injEq] at h
    rw [← h]

/-- Claim C1, counterexample to "for every input": at `period = 0`,
`counter = 0`, `initial_timer_value = 65537`, `timer_overflow_amount =
64`, the Rust subtraction `65536 - initial_timer_value` underflows
(failure), so `calc_now` does not return the wraparound-safe difference
the claim prescribes for every input. -/
theorem C1_counterexample :
    calc_now 0 0 65537 64 = none ∧
    calc_now 0 0 65537 64 ≠ some (compute_now_spec 0 0 65537 64) := by decide

/-- Claim C1 (amended): for every input in the ranges the driver can hold
(`counter` a `u16`; `initial_timer_value` and `timer_overflow_amount` at
most 65536 — both are in fact stored from `u16` values), `calc_now`
equals the spec's two-branch reference algorithm `compute_now_spec`; and
in particular for `period = 1`, `overflow_period_length = 64`,
`counter = 10` the elapsed hardware ticks are 138. -/
theorem C1_calc_now_matches_reference :
    (∀ p c i t, c < 65536 → i ≤ 65536 → t ≤ 65536 →
      calc_now p c i t = some (compute_now_spec p c i t)) ∧
    hardware_ticks_elapsed 1 10 0 64 = some 138 := by
  refine ⟨fun p c i t hc hi ht => ?_, by decide⟩
  rw [calc_now_eq_total p c i t hi ht, calcNowTotal_eq_spec p c i t hc hi ht]

/-- Witness for C1 at `period = 1`, `counter = 10`, `initial = 0`,
`overflow = 64`. -/
theorem C1_witness :
    (10 : ℕ) < 65536 ∧ calc_now 1 10 0 64 = some (compute_now_spec 1 10 0 64) :=
  ⟨by decide, C1_calc_now_matches_reference.1 1 10 0 64 (by decide) (by decide) (by decide)⟩

/-- Claim C2: along any hardware-consistent evolution — counter counting
up in its reload window modulo the 16-bit width, period advancing by
exactly one at each overflow (`tick`/`hwTrace`), with the captured
initial counter and the overflow period length fixed at their
initialization values — `calc_now` (total rendering) is non-decreasing. -/
theorem C2_calc_now_monotone_on_trace (toa itv : ℕ) (h0 : 0 < toa) (ht : toa ≤ 65536)
    (hitv1 : 65536 - toa ≤ itv) (hitv2 : itv < 65536) (m n : ℕ) (hmn : m ≤ n) :
    calcNowTotal (hwTrace toa itv m).1 (hwTrace toa itv m).2 itv toa ≤
      calcNowTotal (hwTrace toa itv n).1 (hwTrace toa itv n).2 itv toa :=
  calcNow_mono_trace toa itv h0 ht hitv1 hitv2 m n hmn

/-- Witness for C2 with the default configuration (`toa = 64`, initial
counter at the reload value 65472), three ticks. -/
theorem C2_witness :
    calcNowTotal (hwTrace 64 65472 0).1 (hwTrace 64 65472 0).2 65472 64 ≤
      calcNowTotal (hwTrace 64 65472 3).1 (hwTrace 64 65472 3).2 65472 64 :=
  C2_calc_now_monotone_on_trace 64 65472 (by decide) (by decide) (by decide) (by decide)
    0 3 (by decide)

/-- Claim C3: `set_alarm` succeeds exactly when the candidate deadline is
strictly greater than `now` and stores `u64::MAX` on failure; and the
retry loop shared by `trigger_alarm` and `schedule_wake` terminates
within `queue.length + 1` iterations (given monotone `now` readings below
`u64::MAX`), exiting with a recorded deadline strictly above a `now`
reading — a deadline at or before the current `now` is treated as already
expired and recomputed, never deferred indefinitely. -/
theorem C3_alarm_retry_loop :
    (∀ ts n2, ((set_alarm ts n2).1 = true ↔ n2 < ts)) ∧
    (∀ ts n2, (set_alarm ts n2).1 = false → (set_alarm ts n2).2 = UMAX) ∧
    (∀ (nows : ℕ → ℕ) (q : List ℕ) (i : ℕ), Monotone nows → (∀ j, nows j < UMAX) →
      ∃ r next, alarmLoop nows i (q.length + 1) q = some (r, next) ∧ ∃ j, nows j < next) := by
  refine ⟨set_alarm_true_iff, set_alarm_false_stores_umax, fun nows q i hm hl => ?_⟩
  exact alarmLoop_terminates nows hm hl (q.length + 1) i q
    (Nat.lt_succ_of_le (List.length_filter_le _ q))

/-- Witness for C3: constant `now = 0` and a single queued deadline 3. -/
theorem C3_witness :
    ∃ r next, alarmLoop (fun _ => 0) 0 ([3].length + 1) [3] = some (r, next) ∧
      ∃ j, (fun _ => 0 : ℕ → ℕ) j < next :=
  C3_alarm_retry_loop.2.2 (fun _ => 0) [3] 0 monotone_const
    (fun _ => Nat.pos_of_ne_zero (by decide))

/-- Claim C4, counterexample to "any u32 timer_overflow_amount": at
`timer_overflow_amount = 65537` the subtraction `65536 -
timer_overflow_amount` underflows, so `calc_now` has a failure path on
that representable input. -/
theorem C4_counterexample : calc_now 0 0 0 65537 = none := by decide

/-- Claim C4 (amended): for every input with `initial_timer_value` and
`timer_overflow_amount` at most 65536 (both are in fact stored from `u16`
values, so this covers every state the driver can reach) and any `u32`
period, no subtraction underflows and `calc_now` returns a value. -/
theorem C4_calc_now_total_on_driver_range :
    ∀ p c i t, c < 65536 → i ≤ 65536 → t ≤ 65536 → ∃ v, calc_now p c i t = some v :=
  fun p c i t _ hi ht => ⟨_, calc_now_eq_total p c i t hi ht⟩

/-- Witness for C4 at `period = 1`, `counter = 10`, `initial = 0`,
`overflow = 64`. -/
theorem C4_witness : ∃ v, calc_now 1 10 0 64 = some v :=
  C4_calc_now_total_on_driver_range 1 10 0 64 (by decide) (by decide) (by decide)

/-- Claim C5: the hardware-to-logical conversion is the floor of the
elapsed hardware ticks divided by 2 — it only ever rounds down (twice the
result never exceeds the hardware tick count) and never undercounts by a
full logical tick (the hardware count is within 2 of twice the result). -/
theorem C5_conversion_rounds_down :
    ∀ p c i t h, hardware_ticks_elapsed p c i t = some h →
      calc_now p c i t = some (h / 2) ∧ 2 * (h / 2) ≤ h ∧ h < 2 * (h / 2) + 2 := by
  intro p c i t h hh
  refine ⟨?_, by omega, by omega⟩
  unfold calc_now
  rw [hh, Option.map_some']

/-- Witness for C5 at the 138-hardware-tick example. -/
theorem C5_witness :
    hardware_ticks_elapsed 1 10 0 64 = some 138 ∧ calc_now 1 10 0 64 = some (138 / 2) :=
  ⟨by decide, (C5_conversion_rounds_down 1 10 0 64 138 (by decide)).1⟩

/-- Claim C6: `period` is advanced only by the interrupt handler and by
exactly 1 per invocation (wrapping at the `u32` width); `trigger_alarm`,
`schedule_wake`, `set_timer_frequency` and `set_alarm` leave `period`
unchanged (`now` is a pure read and has no state output at all), and
initialization stores `period = 0`. -/
theorem C6_period_single_writer :
    (∀ nows i (s s2 : DriverState), on_interrupt nows i s = some s2 →
      s2.period = (s.period + 1) % 2 ^ 32) ∧
    (∀ nows i (s s2 : DriverState), trigger_alarm nows i s = some s2 →
      s2.period = s.period) ∧
    (∀ d nows i (s s2 : DriverState), schedule_wake d nows i s = some s2 →
      s2.period = s.period) ∧
    (∀ (s : DriverState) v, (set_timer_frequency s v).period = s.period) ∧
    (∀ (s : DriverState) ts n2, (set_alarm_apply s ts n2).period = s.period) ∧
    initialDriverState.period = 0 :=
  ⟨on_interrupt_period, trigger_alarm_period, schedule_wake_period,
    fun _ _ => rfl, fun _ _ _ => rfl, rfl⟩

/-- Witness for C6: one interrupt from the initial state advances `period`
from 0 to 1. -/
theorem C6_witness :
    ∃ s2, on_interrupt (fun _ => 0) 0 initialDriverState = some s2 ∧
      s2.period = (initialDriverState.period + 1) % 2 ^ 32 := by
  refine ⟨⟨1 % 2 ^ 32, 0, 64, UMAX, [], none⟩, rfl, ?_⟩
  exact C6_period_single_writer.1 (fun _ => 0) 0 initialDriverState _ rfl

/-- Claim C7: the idle loop has no terminal state (every step of
`Executor::run`'s loop continues) and transitions RUN → HALT
unconditionally: after every poll pass exactly one halt request is issued
before the next poll pass, regardless of whether runnable work remains. -/
theorem C7_idle_loop_alternates :
    (∀ b s, (execStep b s).isSome = true) ∧
    (∀ b, execStep b ExecPhase.run = some ExecPhase.halt) ∧
    (∀ b, execStep b ExecPhase.halt = some ExecPhase.run) := by
  refine ⟨fun b s => ?_, fun b => rfl, fun b => rfl⟩
  cases s <;> rfl

/-- Claim C8: the build-time timer-selection check fails exactly when the
number of enabled timer feature flags is zero or greater than one, and
accepts exactly the assignments with one flag enabled. -/
theorem C8_exactly_one_timer_check :
    ∀ f0 f1 f2 f3 : Bool,
      (timer_config_check f0 f1 f2 f3 = none ↔
        (timer_count f0 f1 f2 f3 = 0 ∨ 1 < timer_count f0 f1 f2 f3)) ∧
      ((timer_config_check f0 f1 f2 f3).isSome = true ↔
        [f0, f1, f2, f3].count true = 1) := by decide

/-- Claim C10: while the timer cell holds `None`, `read_timer_value`
returns 0 and `now` returns `calc_now(period, 0, initial_timer_value,
timer_overflow_amount)`; in the pre-initialization state (`period = 0`,
`initial_timer_value = 0`) that value is 0, whatever the overflow amount,
and in particular `now` of the static initial driver state is 0. -/
theorem C10_now_before_init :
    (∀ s : DriverState, s.timer = none →
      read_timer_value s = 0 ∧
        now s = calcNowTotal s.period 0 s.initial_timer_value s.timer_overflow_amount) ∧
    (∀ t, calcNowTotal 0 0 0 t = 0) ∧ now initialDriverState = 0 := by
  refine ⟨fun s hs => ?_, fun t => ?_, by decide⟩
  · have hr : read_timer_value s = 0 := by
      unfold read_timer_value
      rw [hs]
    exact ⟨hr, by unfold now; rw [hr]⟩
  · simp [calcNowTotal, hwTicksTotal]

/-- Witness for C10 at the initial driver state (timer cell `None`). -/
theorem C10_witness :
    read_timer_value initialDriverState = 0 ∧
      now initialDriverState =
        calcNowTotal initialDriverState.period 0 initialDriverState.initial_timer_value
          initialDriverState.timer_overflow_amount :=
  C10_now_before_init.1 initialDriverState rfl
